import Mathlib

/-!
Verification of the gov-doc-rag core: a shallow embedding of the
normalization/chunking pipeline (`src/services/indexer/cli.py`,
`src/services/ingestor/cli.py`), the retrieval-rerank fusion
(`src/services/api/main.py`) and the citation scorer
(`src/evals/run_ragas.py`), with theorems about the spec's claims.

Text is modelled as `List Char` (Python `str`; `len`, slicing and
concatenation coincide character-wise).  Python functions that may loop
forever are modelled with explicit fuel returning `Option`: `none` means
the given fuel was not enough, and a result that is `none` for *every*
fuel is a genuine non-terminating execution.
-/

namespace GovDocRag

/-- Python whitespace for `str.strip()` and the regex class `\s`
(ASCII fragment, which is all this pipeline feeds it). -/
def pySpace (c : Char) : Bool :=
  c = ' ' || c = '\t' || c = '\n' || c = '\r' || c = '\x0b' || c = '\x0c'

/-- Python `s.strip()`: drop leading and trailing whitespace. -/
def pyStrip (s : List Char) : List Char :=
  ((s.dropWhile pySpace).reverse.dropWhile pySpace).reverse

/-- The body of the `while i < len(ch)` loop of `_sliding_window`
(indexer `cli.py`, lines 128-133), with explicit fuel.  Each iteration
emits the window `ch[i : i + max_len]`, stops after a window reaching the
end of `ch`, and otherwise advances to `max(0, i + max_len - overlap)`. -/
def slideLoop (fuel : Nat) (ch : List Char) (maxLen overlap i : Nat) :
    Option (List (List Char)) :=
  match fuel with
  | 0 => none
  | fuel + 1 =>
    if i < ch.length then
      let w := (ch.drop i).take maxLen
      if ch.length ≤ i + maxLen then
        some [w]
      else
        match slideLoop fuel ch maxLen overlap (max 0 (i + maxLen - overlap)) with
        | none => none
        | some rest => some (w :: rest)
    else
      some []

/-- One unit of `_sliding_window`: a chunk short enough passes through,
an oversized one is sliced by `slideLoop` starting at `i = 0`.  The fuel
`ch.length + 1` is enough whenever the Python loop terminates (the start
index advances by at least one per iteration when `overlap < max_len`). -/
def slideOne (ch : List Char) (maxLen overlap : Nat) : Option (List (List Char)) :=
  if ch.length ≤ maxLen then some [ch]
  else slideLoop (ch.length + 1) ch maxLen overlap 0

/-- `_sliding_window(chunks, max_len, overlap)` (indexer `cli.py`,
lines 121-134): concatenation, in order, of each chunk's windows. -/
def sliding_window (chunks : List (List Char)) (maxLen overlap : Nat) :
    Option (List (List Char)) :=
  match chunks with
  | [] => some []
  | ch :: rest =>
    match slideOne ch maxLen overlap, sliding_window rest maxLen overlap with
    | some ws, some out => some (ws ++ out)
    | _, _ => none

/-- Longest whitespace prefix of `s` that still ends in a newline:
`lastNl s i best` returns the index (offset by `i`) of the last `'\n'`
inside the maximal whitespace run at the head of `s`.  This is exactly
where the greedy `\s*` of the regex `\n\s*\n` ends its match. -/
def lastNl (s : List Char) (i : Nat) (best : Option Nat) : Option Nat :=
  match s with
  | [] => best
  | c :: rest =>
    if pySpace c then lastNl rest (i + 1) (if c = '\n' then some i else best)
    else best

/-- Scanner for `re.split(r"\n\s*\n", text)`: at each `'\n'` try to
match `\n\s*\n` greedily; on a match, cut the current piece and resume
after the match (the `skip` counter swallows the rest of the matched
span); otherwise the character joins the current piece. -/
def reSplitBlankGo (remaining : List Char) (acc : List Char) (skip : Nat) :
    List (List Char) :=
  match remaining with
  | [] => [acc.reverse]
  | c :: rest =>
    match skip with
    | skip + 1 => reSplitBlankGo rest acc skip
    | 0 =>
      if c = '\n' then
        match lastNl rest 0 none with
        | some k => acc.reverse :: reSplitBlankGo rest [] (k + 1)
        | none => reSplitBlankGo rest (c :: acc) 0
      else reSplitBlankGo rest (c :: acc) 0

/-- `re.split(r"\n\s*\n", text)` from `_split_paragraphs`. -/
def reSplitBlank (text : List Char) : List (List Char) :=
  reSplitBlankGo text [] 0

/-- The greedy packing loop of `_split_paragraphs` (indexer `cli.py`,
lines 107-117): merge consecutive paragraphs into `buf` while the merged
length fits in `chunkSize`, flushing `buf` to `out` on overflow. -/
def packGo (chunkSize : Nat) (paras : List (List Char))
    (out : List (List Char)) (buf : List Char) : List (List Char) :=
  match paras with
  | [] => if buf ≠ [] then out ++ [buf] else out
  | p :: rest =>
    if buf.length + 1 + p.length ≤ chunkSize then
      packGo chunkSize rest out (if buf ≠ [] then pyStrip (buf ++ '\n' :: p) else p)
    else if buf ≠ [] then
      packGo chunkSize rest (out ++ [buf]) p
    else
      packGo chunkSize rest out p

/-- `_split_paragraphs(text)` (indexer `cli.py`, lines 104-118): split on
blank lines, keep the stripped non-empty paragraphs, then greedily pack
them up to `chunkSize` (the global `CHUNK_SIZE`, a parameter here). -/
def split_paragraphs (chunkSize : Nat) (text : List Char) : List (List Char) :=
  packGo chunkSize
    ((reSplitBlank text).filterMap fun p =>
      let q := pyStrip p
      if q = [] then none else some q)
    [] []

/-- `_flatten_table(rows)` (indexer `cli.py`, lines 94-101): each row
becomes the line `"- c1 | c2 | c3"` of its stripped cells, rows whose
joined line strips to empty are skipped, lines are newline-joined. -/
def flatten_table (rows : List (List (List Char))) : List Char :=
  List.intercalate ['\n']
    (rows.filterMap fun r =>
      let line := List.intercalate (" | ".toList) (r.map pyStrip)
      if pyStrip line ≠ [] then some ('-' :: ' ' :: line) else none)

/-- One page of a normalized document (`normalized["pages"][k]`). -/
structure NormalizedPage where
  page : Nat
  text : List Char
  tables : List (List (List (List Char)))
  lang : Option String

/-- A normalized document as read by the indexer. -/
structure NormalizedDoc where
  doc_id : String
  source_s3 : String
  pages : List NormalizedPage

/-- The metadata dict attached to each chunk by `build_chunks`. -/
structure ChunkMeta where
  doc_id : String
  page : Nat
  lang : String
  source_s3 : String
  type : String
deriving DecidableEq

/-- The `Chunk` dataclass (indexer `cli.py`, lines 137-141). -/
structure Chunk where
  id : String
  text : List Char
  metadata : ChunkMeta
deriving DecidableEq

/-- Text chunks of one page: ids `{doc_id}-p{page}-seg{i}`. -/
def textChunks (docId src : String) (pageNum : Nat) (lang : String)
    (paras : List (List Char)) : List Chunk :=
  paras.enum.map fun ip =>
    { id := docId ++ "-p" ++ toString pageNum ++ "-seg" ++ toString ip.1
      text := ip.2
      metadata :=
        { doc_id := docId, page := pageNum, lang := lang
          source_s3 := src, type := "text" } }

/-- Chunks of one table: ids `{doc_id}-p{page}-table{ti}-seg{j}`. -/
def tableChunks (docId src : String) (pageNum : Nat) (lang : String)
    (ti : Nat) (parts : List (List Char)) : List Chunk :=
  parts.enum.map fun jp =>
    { id := docId ++ "-p" ++ toString pageNum ++ "-table" ++ toString ti
          ++ "-seg" ++ toString jp.1
      text := jp.2
      metadata :=
        { doc_id := docId, page := pageNum, lang := lang
          source_s3 := src, type := "table" } }

/-- The table loop of `build_chunks` (indexer `cli.py`, lines 170-188):
for each `(ti, tbl)` in `enumerate(page["tables"])`, flatten the table,
skip it when the flattening strips to empty, otherwise slice it with the
sliding window and emit its table chunks. -/
def tablesLoop (chunkSize overlap : Nat) (docId src : String) (pageNum : Nat)
    (lang : String) (tables : List (Nat × List (List (List Char)))) :
    Option (List Chunk) :=
  match tables with
  | [] => some []
  | titbl :: rest =>
    let flat := flatten_table titbl.2
    if pyStrip flat ≠ [] then
      match sliding_window [flat] chunkSize overlap,
          tablesLoop chunkSize overlap docId src pageNum lang rest with
      | some parts, some out =>
        some (tableChunks docId src pageNum lang titbl.1 parts ++ out)
      | _, _ => none
    else
      tablesLoop chunkSize overlap docId src pageNum lang rest

/-- The per-page body of `build_chunks` (indexer `cli.py`, lines
148-188).  `detect` is the external `_detect_lang` capability, used only
when the page carries no (non-empty) language tag. -/
def pageChunks (chunkSize overlap : Nat) (detect : List Char → String)
    (docId src : String) (page : NormalizedPage) : Option (List Chunk) :=
  let lang :=
    match page.lang with
    | some l => if l = "" then detect page.text else l
    | none => detect page.text
  match sliding_window (split_paragraphs chunkSize page.text) chunkSize overlap,
      tablesLoop chunkSize overlap docId src page.page lang page.tables.enum with
  | some paras, some tcs =>
    some (textChunks docId src page.page lang paras ++ tcs)
  | _, _ => none

/-- `build_chunks(normalized)` (indexer `cli.py`, lines 144-189),
parameterized by the global `CHUNK_SIZE` / `CHUNK_OVERLAP`. -/
def build_chunks (chunkSize overlap : Nat) (detect : List Char → String)
    (doc : NormalizedDoc) : Option (List Chunk) :=
  go doc.pages
where
  /-- Loop over `normalized["pages"]`, concatenating per-page chunks. -/
  go : List NormalizedPage → Option (List Chunk)
  | [] => some []
  | pg :: rest =>
    match pageChunks chunkSize overlap detect doc.doc_id doc.source_s3 pg, go rest with
    | some cs, some out => some (cs ++ out)
    | _, _ => none

/-! ### Length bound of the sliding window (claim C1) -/

theorem slideLoop_length_le {fuel : Nat} {ch : List Char} {maxLen overlap i : Nat}
    {ws : List (List Char)} (h : slideLoop fuel ch maxLen overlap i = some ws) :
    ∀ w ∈ ws, w.length ≤ maxLen := by
  induction fuel generalizing i ws with
  | zero => simp [slideLoop] at h
  | succ fuel ih =>
    rw [slideLoop] at h
    split at h
    · split at h
      · cases h
        intro w hw
        rcases List.mem_singleton.mp hw with rfl
        simp [List.length_take]
      · split at h
        · cases h
        · rename_i rest hrest
          cases h
          intro w hw
          rcases List.mem_cons.mp hw with rfl | hw'
          · simp [List.length_take]
          · exact ih hrest w hw'
    · cases h
      intro w hw
      simp at hw

theorem slideOne_length_le {ch : List Char} {maxLen overlap : Nat}
    {ws : List (List Char)} (h : slideOne ch maxLen overlap = some ws) :
    ∀ w ∈ ws, w.length ≤ maxLen := by
  rw [slideOne] at h
  split at h
  · cases h
    intro w hw
    rcases List.mem_singleton.mp hw with rfl
    assumption
  · exact slideLoop_length_le h

theorem sliding_window_length_le {chunks : List (List Char)} {maxLen overlap : Nat}
    {ws : List (List Char)} (h : sliding_window chunks maxLen overlap = some ws) :
    ∀ w ∈ ws, w.length ≤ maxLen := by
  induction chunks generalizing ws with
  | nil => rw [sliding_window] at h; cases h; simp
  | cons ch rest ih =>
    rw [sliding_window] at h
    split at h
    · rename_i ws₁ out h₁ h₂
      cases h
      intro w hw
      rcases List.mem_append.mp hw with hw' | hw'
      · exact slideOne_length_le h₁ w hw'
      · exact ih h₂ w hw'
    · cases h

theorem snd_mem_of_mem_enumFrom {α : Type} {l : List α} {n : Nat} {x : Nat × α}
    (h : x ∈ l.enumFrom n) : x.2 ∈ l := by
  induction l generalizing n with
  | nil => simp at h
  | cons a l ih =>
    rw [List.enumFrom] at h
    rcases List.mem_cons.mp h with rfl | h'
    · exact List.mem_cons_self _ _
    · exact List.mem_cons_of_mem _ (ih h')

theorem snd_mem_of_mem_enum {α : Type} {l : List α} {x : Nat × α}
    (h : x ∈ l.enum) : x.2 ∈ l :=
  snd_mem_of_mem_enumFrom h

theorem mem_textChunks_text {docId src : String} {pageNum : Nat} {lang : String}
    {paras : List (List Char)} {c : Chunk} (h : c ∈ textChunks docId src pageNum lang paras) :
    c.text ∈ paras := by
  rw [textChunks] at h
  rcases List.mem_map.mp h with ⟨ip, hip, rfl⟩
  exact snd_mem_of_mem_enum hip

theorem mem_tableChunks_text {docId src : String} {pageNum : Nat} {lang : String}
    {ti : Nat} {parts : List (List Char)} {c : Chunk}
    (h : c ∈ tableChunks docId src pageNum lang ti parts) :
    c.text ∈ parts := by
  rw [tableChunks] at h
  rcases List.mem_map.mp h with ⟨jp, hjp, rfl⟩
  exact snd_mem_of_mem_enum hjp

theorem tablesLoop_length_le {chunkSize overlap : Nat} {docId src : String}
    {pageNum : Nat} {lang : String} {tables : List (Nat × List (List (List Char)))}
    {cs : List Chunk} (h : tablesLoop chunkSize overlap docId src pageNum lang tables = some cs) :
    ∀ c ∈ cs, c.text.length ≤ chunkSize := by
  induction tables generalizing cs with
  | nil => rw [tablesLoop] at h; cases h; simp
  | cons titbl rest ih =>
    rw [tablesLoop] at h
    split at h
    · split at h
      · rename_i parts out hparts hout
        cases h
        intro c hc
        rcases List.mem_append.mp hc with hc' | hc'
        · exact sliding_window_length_le hparts _ (mem_tableChunks_text hc')
        · exact ih hout c hc'
      · cases h
    · exact ih h

theorem pageChunks_length_le {chunkSize overlap : Nat} {detect : List Char → String}
    {docId src : String} {page : NormalizedPage} {cs : List Chunk}
    (h : pageChunks chunkSize overlap detect docId src page = some cs) :
    ∀ c ∈ cs, c.text.length ≤ chunkSize := by
  rw [pageChunks] at h
  split at h
  · rename_i paras tcs hparas htcs
    cases h
    intro c hc
    rcases List.mem_append.mp hc with hc' | hc'
    · exact sliding_window_length_le hparas _ (mem_textChunks_text hc')
    · exact tablesLoop_length_le htcs c hc'
  · cases h

theorem build_chunks_go_length_le {chunkSize overlap : Nat}
    {detect : List Char → String} {doc : NormalizedDoc}
    {pages : List NormalizedPage} {cs : List Chunk}
    (h : build_chunks.go chunkSize overlap detect doc pages = some cs) :
    ∀ c ∈ cs, c.text.length ≤ chunkSize := by
  induction pages generalizing cs with
  | nil => rw [build_chunks.go] at h; cases h; simp
  | cons pg rest ih =>
    rw [build_chunks.go] at h
    split at h
    · rename_i cs₁ out h₁ h₂
      cases h
      intro c hc
      rcases List.mem_append.mp hc with hc' | hc'
      · exact pageChunks_length_le h₁ c hc'
      · exact ih h₂ c hc'
    · cases h

/-- C1: for every normalized document, positive `maxSegmentLength` and
`overlapLength < maxSegmentLength`, every chunk emitted by
`build_chunks` — text chunks from paragraph packing as well as table
chunks from table flattening — has text of length at most
`maxSegmentLength`. -/
theorem chunk_length_le_maxSegmentLength
    (chunkSize overlap : Nat) (detect : List Char → String) (doc : NormalizedDoc)
    (cs : List Chunk) (hpos : 1 ≤ chunkSize) (hov : overlap < chunkSize)
    (h : build_chunks chunkSize overlap detect doc = some cs) :
    ∀ c ∈ cs, c.text.length ≤ chunkSize :=
  build_chunks_go_length_le h

/-- A small concrete normalized document used to instantiate the
quantified theorems: one page of text plus one 1×2 table. -/
def demoDoc : NormalizedDoc :=
  { doc_id := "doc"
    source_s3 := "s3://raw/x.pdf"
    pages :=
      [{ page := 1
         text := "abcdefgh".toList
         tables := [[["ab".toList, "cd".toList]]]
         lang := some "en" }] }

/-- The chunks the embedding produces on `demoDoc` with
`maxSegmentLength = 4`, `overlapLength = 1`. -/
def demoChunks : List Chunk :=
  (build_chunks 4 1 (fun _ => "en") demoDoc).getD []

theorem chunk_length_le_maxSegmentLength_witness :
    (1 ≤ 4 ∧ 1 < 4 ∧
      build_chunks 4 1 (fun _ => "en") demoDoc = some demoChunks) ∧
    ∀ c ∈ demoChunks, c.text.length ≤ 4 :=
  ⟨⟨by decide, by decide, by rfl⟩,
    chunk_length_le_maxSegmentLength 4 1 (fun _ => "en") demoDoc demoChunks
      (by decide) (by decide) (by rfl)⟩

/-! ### Non-termination at `maxSegmentLength = 0` (claim C2) -/

theorem slideLoop_zero_maxLen_none (fuel overlap : Nat) :
    slideLoop fuel ['a'] 0 overlap 0 = none := by
  induction fuel with
  | zero => rfl
  | succ n ih =>
    rw [slideLoop]
    simp [Nat.zero_sub, ih]

/-- C2: with `maxSegmentLength = 0` the chunker does *not* fail fast: on
any non-empty unit (here the one-character chunk `"a"`, any overlap) the
`while` loop of `_sliding_window` re-runs forever with `i = 0`, so no
amount of fuel produces a result — the code loops instead of raising a
configuration error. -/
theorem sliding_window_zero_maxLen_diverges :
    (∀ fuel overlap, slideLoop fuel ['a'] 0 overlap 0 = none) ∧
    sliding_window [['a']] 0 0 = none := by
  refine ⟨slideLoop_zero_maxLen_none, ?_⟩
  rw [sliding_window, slideOne]
  simp [slideLoop_zero_maxLen_none]

/-! ### Exact overlap of consecutive windows (claim C3) -/

/-- The relation between two consecutive windows demanded by the spec:
the earlier one is full-length, and its `overlapLength`-character suffix
is exactly the later one's prefix. -/
def WindowStep (maxLen overlap : Nat) (w₁ w₂ : List Char) : Prop :=
  w₁.length = maxLen ∧
  w₁.drop (maxLen - overlap) = w₂.take overlap ∧
  (w₁.drop (maxLen - overlap)).length = overlap

theorem slideLoop_chain {fuel : Nat} {ch : List Char} {maxLen overlap i : Nat}
    {ws : List (List Char)} (h : slideLoop fuel ch maxLen overlap i = some ws)
    (hi : i < ch.length) (hov : overlap < maxLen) :
    ∃ hne : ws ≠ [], ws.head hne = (ch.drop i).take maxLen ∧
      List.Chain' (WindowStep maxLen overlap) ws := by
  induction fuel generalizing i ws with
  | zero => simp [slideLoop] at h
  | succ fuel ih =>
    rw [slideLoop] at h
    rw [if_pos hi] at h
    split at h
    · rename_i hend
      cases h
      exact ⟨by simp, rfl, List.chain'_singleton _⟩
    · rename_i hend
      have hlt : i + maxLen < ch.length := by omega
      split at h
      · cases h
      · rename_i rest hrest
        cases h
        have hi' : max 0 (i + maxLen - overlap) < ch.length := by omega
        obtain ⟨hne', hhead', hchain'⟩ := ih hrest hi'
        obtain ⟨r, rest', rfl⟩ := List.exists_cons_of_ne_nil hne'
        simp only [List.head_cons] at hhead'
        subst hhead'
        refine ⟨by simp, by simp, ?_⟩
        rw [List.chain'_cons']
        refine ⟨?_, hchain'⟩
        intro y hy
        simp only [List.head?_cons, Option.mem_def, Option.some.injEq] at hy
        subst hy
        have hw₁ : ((ch.drop i).take maxLen).length = maxLen := by
          rw [List.length_take, List.length_drop]
          omega
        have hsuffix : ((ch.drop i).take maxLen).drop (maxLen - overlap) =
            (ch.drop (max 0 (i + maxLen - overlap))).take overlap := by
          rw [List.drop_take, List.drop_drop]
          have h1 : maxLen - (maxLen - overlap) = overlap := by omega
          have h2 : i + (maxLen - overlap) = max 0 (i + maxLen - overlap) := by omega
          rw [h1, h2]
        have hprefix : ((ch.drop (max 0 (i + maxLen - overlap))).take maxLen).take overlap =
            (ch.drop (max 0 (i + maxLen - overlap))).take overlap := by
          rw [List.take_take]
          congr 1
          omega
        refine ⟨hw₁, ?_, ?_⟩
        · rw [hsuffix, ← hprefix]
        · rw [hsuffix, List.length_take, List.length_drop]
          have : max 0 (i + maxLen - overlap) + overlap < ch.length := by omega
          omega

/-- C3: slicing any oversized unit (`maxSegmentLength < len(ch)`) with
`overlapLength < maxSegmentLength` yields a non-empty window list in
which every window except possibly the last has length exactly
`maxSegmentLength`, and each consecutive pair shares exactly
`overlapLength` characters: the earlier window's suffix of that length
is the later window's prefix. -/
theorem sliding_window_consecutive_overlap
    (ch : List Char) (maxLen overlap : Nat) (ws : List (List Char))
    (hlong : maxLen < ch.length) (hov : overlap < maxLen)
    (h : slideOne ch maxLen overlap = some ws) :
    ws ≠ [] ∧ List.Chain' (WindowStep maxLen overlap) ws := by
  rw [slideOne, if_neg (by omega)] at h
  obtain ⟨hne, _, hchain⟩ := slideLoop_chain h (by omega) hov
  exact ⟨hne, hchain⟩

/-- The windows of the demonstration slice `"abcdefghij"`,
`maxSegmentLength = 4`, `overlapLength = 1`. -/
def demoWindows : List (List Char) :=
  (slideOne "abcdefghij".toList 4 1).getD []

theorem sliding_window_consecutive_overlap_witness :
    (4 < ("abcdefghij".toList).length ∧ 1 < 4 ∧
      slideOne "abcdefghij".toList 4 1 = some demoWindows) ∧
    (demoWindows ≠ [] ∧ List.Chain' (WindowStep 4 1) demoWindows) :=
  ⟨⟨by decide, by decide, by rfl⟩,
    sliding_window_consecutive_overlap "abcdefghij".toList 4 1 demoWindows
      (by decide) (by decide) (by rfl)⟩

/-! ### Deterministic segment ids (claim C4) -/

theorem mem_textChunks {docId src : String} {pageNum : Nat} {lang : String}
    {paras : List (List Char)} {c : Chunk}
    (h : c ∈ textChunks docId src pageNum lang paras) :
    c.metadata.type = "text" ∧ c.metadata.page = pageNum ∧
      ∃ i : Nat, c.id = docId ++ "-p" ++ toString pageNum ++ "-seg" ++ toString i := by
  rw [textChunks] at h
  rcases List.mem_map.mp h with ⟨ip, _, rfl⟩
  exact ⟨rfl, rfl, ip.1, rfl⟩

theorem mem_tableChunks {docId src : String} {pageNum : Nat} {lang : String}
    {ti : Nat} {parts : List (List Char)} {c : Chunk}
    (h : c ∈ tableChunks docId src pageNum lang ti parts) :
    c.metadata.type = "table" ∧ c.metadata.page = pageNum ∧
      ∃ t i : Nat, c.id = docId ++ "-p" ++ toString pageNum ++ "-table" ++ toString t
        ++ "-seg" ++ toString i := by
  rw [tableChunks] at h
  rcases List.mem_map.mp h with ⟨jp, _, rfl⟩
  exact ⟨rfl, rfl, ti, jp.1, rfl⟩

theorem tablesLoop_mem_id {chunkSize overlap : Nat} {docId src : String}
    {pageNum : Nat} {lang : String} {tables : List (Nat × List (List (List Char)))}
    {cs : List Chunk} (h : tablesLoop chunkSize overlap docId src pageNum lang tables = some cs) :
    ∀ c ∈ cs, c.metadata.type = "table" ∧ c.metadata.page = pageNum ∧
      ∃ t i : Nat, c.id = docId ++ "-p" ++ toString pageNum ++ "-table" ++ toString t
        ++ "-seg" ++ toString i := by
  induction tables generalizing cs with
  | nil => rw [tablesLoop] at h; cases h; simp
  | cons titbl rest ih =>
    rw [tablesLoop] at h
    split at h
    · split at h
      · rename_i parts out hparts hout
        cases h
        intro c hc
        rcases List.mem_append.mp hc with hc' | hc'
        · exact mem_tableChunks hc'
        · exact ih hout c hc'
      · cases h
    · exact ih h

theorem pageChunks_mem_id {chunkSize overlap : Nat} {detect : List Char → String}
    {docId src : String} {page : NormalizedPage} {cs : List Chunk}
    (h : pageChunks chunkSize overlap detect docId src page = some cs) :
    ∀ c ∈ cs,
      (c.metadata.type = "text" ∧
        ∃ i : Nat, c.id = docId ++ "-p" ++ toString c.metadata.page ++ "-seg" ++ toString i) ∨
      (c.metadata.type = "table" ∧
        ∃ t i : Nat, c.id = docId ++ "-p" ++ toString c.metadata.page ++ "-table"
          ++ toString t ++ "-seg" ++ toString i) := by
  rw [pageChunks] at h
  split at h
  · rename_i paras tcs hparas htcs
    cases h
    intro c hc
    rcases List.mem_append.mp hc with hc' | hc'
    · obtain ⟨hty, hpg, i, hid⟩ := mem_textChunks hc'
      exact Or.inl ⟨hty, i, by rw [hpg, hid]⟩
    · obtain ⟨hty, hpg, t, i, hid⟩ := tablesLoop_mem_id htcs c hc'
      exact Or.inr ⟨hty, t, i, by rw [hpg, hid]⟩
  · cases h

/-- The ordered id list of an optional chunk list. -/
def idsOf (o : Option (List Chunk)) : Option (List String) :=
  o.map (List.map Chunk.id)

theorem textChunks_ids (docId src : String) (pageNum : Nat) (lang : String)
    (paras : List (List Char)) :
    (textChunks docId src pageNum lang paras).map Chunk.id =
      paras.enum.map fun ip =>
        docId ++ "-p" ++ toString pageNum ++ "-seg" ++ toString ip.1 := by
  rw [textChunks, List.map_map]
  rfl

theorem tableChunks_ids (docId src : String) (pageNum : Nat) (lang : String)
    (ti : Nat) (parts : List (List Char)) :
    (tableChunks docId src pageNum lang ti parts).map Chunk.id =
      parts.enum.map fun jp =>
        docId ++ "-p" ++ toString pageNum ++ "-table" ++ toString ti
          ++ "-seg" ++ toString jp.1 := by
  rw [tableChunks, List.map_map]
  rfl

theorem tablesLoop_ids_lang_irrel (chunkSize overlap : Nat) (docId src : String)
    (pageNum : Nat) (lang₁ lang₂ : String)
    (tables : List (Nat × List (List (List Char)))) :
    idsOf (tablesLoop chunkSize overlap docId src pageNum lang₁ tables) =
      idsOf (tablesLoop chunkSize overlap docId src pageNum lang₂ tables) := by
  induction tables with
  | nil => rfl
  | cons titbl rest ih =>
    rw [tablesLoop, tablesLoop]
    split
    · cases hsw : sliding_window [flatten_table titbl.2] chunkSize overlap with
      | none =>
        cases h₁ : tablesLoop chunkSize overlap docId src pageNum lang₁ rest <;>
          cases h₂ : tablesLoop chunkSize overlap docId src pageNum lang₂ rest <;>
            rfl
      | some parts =>
        cases h₁ : tablesLoop chunkSize overlap docId src pageNum lang₁ rest with
        | none =>
          cases h₂ : tablesLoop chunkSize overlap docId src pageNum lang₂ rest with
          | none => rfl
          | some out₂ => rw [h₁, h₂] at ih; cases ih
        | some out₁ =>
          cases h₂ : tablesLoop chunkSize overlap docId src pageNum lang₂ rest with
          | none => rw [h₁, h₂] at ih; cases ih
          | some out₂ =>
            rw [h₁, h₂] at ih
            simp only [idsOf, Option.map_some', Option.some.injEq] at ih ⊢
            rw [List.map_append, List.map_append, tableChunks_ids, tableChunks_ids, ih]
    · exact ih

theorem pageChunks_ids_detect_irrel (chunkSize overlap : Nat)
    (detect₁ detect₂ : List Char → String) (docId src : String)
    (page : NormalizedPage) :
    idsOf (pageChunks chunkSize overlap detect₁ docId src page) =
      idsOf (pageChunks chunkSize overlap detect₂ docId src page) := by
  rw [pageChunks, pageChunks]
  have hT := tablesLoop_ids_lang_irrel chunkSize overlap docId src page.page
    (match page.lang with
      | some l => if l = "" then detect₁ page.text else l
      | none => detect₁ page.text)
    (match page.lang with
      | some l => if l = "" then detect₂ page.text else l
      | none => detect₂ page.text)
    page.tables.enum
  cases hsw : sliding_window (split_paragraphs chunkSize page.text) chunkSize overlap with
  | none =>
    cases h₁ : tablesLoop chunkSize overlap docId src page.page _ page.tables.enum <;>
      cases h₂ : tablesLoop chunkSize overlap docId src page.page _ page.tables.enum <;>
        rfl
  | some paras =>
    cases h₁ : tablesLoop chunkSize overlap docId src page.page
        (match page.lang with
          | some l => if l = "" then detect₁ page.text else l
          | none => detect₁ page.text) page.tables.enum with
    | none =>
      cases h₂ : tablesLoop chunkSize overlap docId src page.page
          (match page.lang with
            | some l => if l = "" then detect₂ page.text else l
            | none => detect₂ page.text) page.tables.enum with
      | none => rfl
      | some out₂ => rw [h₁, h₂] at hT; cases hT
    | some out₁ =>
      cases h₂ : tablesLoop chunkSize overlap docId src page.page
          (match page.lang with
            | some l => if l = "" then detect₂ page.text else l
            | none => detect₂ page.text) page.tables.enum with
      | none => rw [h₁, h₂] at hT; cases hT
      | some out₂ =>
        rw [h₁, h₂] at hT
        simp only [idsOf, Option.map_some', Option.some.injEq] at hT ⊢
        rw [List.map_append, List.map_append, textChunks_ids, textChunks_ids, hT]

theorem build_chunks_go_ids_detect_irrel (chunkSize overlap : Nat)
    (detect₁ detect₂ : List Char → String) (doc : NormalizedDoc)
    (pages : List NormalizedPage) :
    idsOf (build_chunks.go chunkSize overlap detect₁ doc pages) =
      idsOf (build_chunks.go chunkSize overlap detect₂ doc pages) := by
  induction pages with
  | nil => rfl
  | cons pg rest ih =>
    rw [build_chunks.go, build_chunks.go]
    have hP := pageChunks_ids_detect_irrel chunkSize overlap detect₁ detect₂
      doc.doc_id doc.source_s3 pg
    cases h₁ : pageChunks chunkSize overlap detect₁ doc.doc_id doc.source_s3 pg with
    | none =>
      cases h₂ : pageChunks chunkSize overlap detect₂ doc.doc_id doc.source_s3 pg with
      | none =>
        cases build_chunks.go chunkSize overlap detect₁ doc rest <;>
          cases build_chunks.go chunkSize overlap detect₂ doc rest <;> rfl
      | some cs₂ => rw [h₁, h₂] at hP; cases hP
    | some cs₁ =>
      cases h₂ : pageChunks chunkSize overlap detect₂ doc.doc_id doc.source_s3 pg with
      | none => rw [h₁, h₂] at hP; cases hP
      | some cs₂ =>
        rw [h₁, h₂] at hP
        simp only [idsOf, Option.map_some', Option.some.injEq] at hP
        cases g₁ : build_chunks.go chunkSize overlap detect₁ doc rest with
        | none =>
          cases g₂ : build_chunks.go chunkSize overlap detect₂ doc rest with
          | none => rfl
          | some out₂ => rw [g₁, g₂] at ih; cases ih
        | some out₁ =>
          cases g₂ : build_chunks.go chunkSize overlap detect₂ doc rest with
          | none => rw [g₁, g₂] at ih; cases ih
          | some out₂ =>
            rw [g₁, g₂] at ih
            simp only [idsOf, Option.map_some', Option.some.injEq] at ih ⊢
            rw [List.map_append, List.map_append, hP, ih]

/-- C4: every chunk id has exactly the documented shape —
`{docId}-p{page}-seg{i}` for text chunks, `{docId}-p{page}-table{t}-seg{i}`
for table chunks — and the ordered id list is deterministic: it does not
depend on the language-detection capability (the only external call in
`build_chunks`), so re-running the chunker on the same normalized
document reproduces the identical ordered ids. -/
theorem build_chunks_ids_deterministic
    (chunkSize overlap : Nat) (detect : List Char → String) (doc : NormalizedDoc)
    (cs : List Chunk) (h : build_chunks chunkSize overlap detect doc = some cs) :
    (∀ c ∈ cs,
      (c.metadata.type = "text" ∧
        ∃ i : Nat, c.id = doc.doc_id ++ "-p" ++ toString c.metadata.page
          ++ "-seg" ++ toString i) ∨
      (c.metadata.type = "table" ∧
        ∃ t i : Nat, c.id = doc.doc_id ++ "-p" ++ toString c.metadata.page
          ++ "-table" ++ toString t ++ "-seg" ++ toString i)) ∧
    (∀ (detect' : List Char → String) (cs' : List Chunk),
      build_chunks chunkSize overlap detect' doc = some cs' →
      cs'.map Chunk.id = cs.map Chunk.id) := by
  constructor
  · have : ∀ (pages : List NormalizedPage) (cs : List Chunk),
        build_chunks.go chunkSize overlap detect doc pages = some cs →
        ∀ c ∈ cs,
          (c.metadata.type = "text" ∧
            ∃ i : Nat, c.id = doc.doc_id ++ "-p" ++ toString c.metadata.page
              ++ "-seg" ++ toString i) ∨
          (c.metadata.type = "table" ∧
            ∃ t i : Nat, c.id = doc.doc_id ++ "-p" ++ toString c.metadata.page
              ++ "-table" ++ toString t ++ "-seg" ++ toString i) := by
      intro pages
      induction pages with
      | nil => intro cs h; rw [build_chunks.go] at h; cases h; simp
      | cons pg rest ih =>
        intro cs h
        rw [build_chunks.go] at h
        split at h
        · rename_i cs₁ out h₁ h₂
          cases h
          intro c hc
          rcases List.mem_append.mp hc with hc' | hc'
          · exact pageChunks_mem_id h₁ c hc'
          · exact ih out h₂ c hc'
        · cases h
    exact this doc.pages cs h
  · intro detect' cs' h'
    have := build_chunks_go_ids_detect_irrel chunkSize overlap detect' detect doc doc.pages
    rw [show build_chunks.go chunkSize overlap detect' doc doc.pages =
        build_chunks chunkSize overlap detect' doc from rfl,
      show build_chunks.go chunkSize overlap detect doc doc.pages =
        build_chunks chunkSize overlap detect doc from rfl, h, h'] at this
    simpa [idsOf] using this

theorem build_chunks_ids_deterministic_witness :
    (build_chunks 4 1 (fun _ => "en") demoDoc = some demoChunks) ∧
    ((∀ c ∈ demoChunks,
      (c.metadata.type = "text" ∧
        ∃ i : Nat, c.id = demoDoc.doc_id ++ "-p" ++ toString c.metadata.page
          ++ "-seg" ++ toString i) ∨
      (c.metadata.type = "table" ∧
        ∃ t i : Nat, c.id = demoDoc.doc_id ++ "-p" ++ toString c.metadata.page
          ++ "-table" ++ toString t ++ "-seg" ++ toString i)) ∧
    (∀ (detect' : List Char → String) (cs' : List Chunk),
      build_chunks 4 1 detect' demoDoc = some cs' →
      cs'.map Chunk.id = demoChunks.map Chunk.id)) :=
  ⟨by rfl,
    build_chunks_ids_deterministic 4 1 (fun _ => "en") demoDoc demoChunks (by rfl)⟩

/-! ### Emitted chunks are never empty (claim C10) -/

theorem packGo_ne_nil {chunkSize : Nat} {paras out : List (List Char)}
    {buf : List Char} (hout : ∀ x ∈ out, x ≠ []) :
    ∀ x ∈ packGo chunkSize paras out buf, x ≠ [] := by
  induction paras generalizing out buf with
  | nil =>
    rw [packGo]
    split
    · rename_i hbuf
      intro x hx
      rcases List.mem_append.mp hx with hx' | hx'
      · exact hout x hx'
      · rcases List.mem_singleton.mp hx' with rfl; exact hbuf
    · exact hout
  | cons p rest ih =>
    rw [packGo]
    split
    · exact ih hout
    · split
      · rename_i hbuf
        refine ih ?_
        intro x hx
        rcases List.mem_append.mp hx with hx' | hx'
        · exact hout x hx'
        · rcases List.mem_singleton.mp hx' with rfl; exact hbuf
      · exact ih hout

theorem split_paragraphs_ne_nil {chunkSize : Nat} {text : List Char} :
    ∀ p ∈ split_paragraphs chunkSize text, p ≠ [] :=
  packGo_ne_nil (by simp)

theorem slideLoop_ne_nil {fuel : Nat} {ch : List Char} {maxLen overlap i : Nat}
    {ws : List (List Char)} (h : slideLoop fuel ch maxLen overlap i = some ws)
    (hpos : 1 ≤ maxLen) : ∀ w ∈ ws, w ≠ [] := by
  induction fuel generalizing i ws with
  | zero => simp [slideLoop] at h
  | succ fuel ih =>
    rw [slideLoop] at h
    split at h
    · rename_i hi
      have hw : ((ch.drop i).take maxLen) ≠ [] := by
        refine List.ne_nil_of_length_pos ?_
        rw [List.length_take, List.length_drop]
        omega
      split at h
      · cases h
        intro w hw'
        rcases List.mem_singleton.mp hw' with rfl
        exact hw
      · split at h
        · cases h
        · rename_i rest hrest
          cases h
          intro w hw'
          rcases List.mem_cons.mp hw' with rfl | hw''
          · exact hw
          · exact ih hrest w hw''
    · cases h
      intro w hw
      simp at hw

theorem slideOne_ne_nil {ch : List Char} {maxLen overlap : Nat}
    {ws : List (List Char)} (h : slideOne ch maxLen overlap = some ws)
    (hpos : 1 ≤ maxLen) (hch : ch ≠ []) : ∀ w ∈ ws, w ≠ [] := by
  rw [slideOne] at h
  split at h
  · cases h
    intro w hw
    rcases List.mem_singleton.mp hw with rfl
    exact hch
  · exact slideLoop_ne_nil h hpos

theorem sliding_window_ne_nil {chunks : List (List Char)} {maxLen overlap : Nat}
    {ws : List (List Char)} (h : sliding_window chunks maxLen overlap = some ws)
    (hpos : 1 ≤ maxLen) (hch : ∀ ch ∈ chunks, ch ≠ []) : ∀ w ∈ ws, w ≠ [] := by
  induction chunks generalizing ws with
  | nil => rw [sliding_window] at h; cases h; simp
  | cons ch rest ih =>
    rw [sliding_window] at h
    split at h
    · rename_i ws₁ out h₁ h₂
      cases h
      intro w hw
      rcases List.mem_append.mp hw with hw' | hw'
      · exact slideOne_ne_nil h₁ hpos (hch ch (List.mem_cons_self _ _)) w hw'
      · exact ih h₂ (fun c hc => hch c (List.mem_cons_of_mem _ hc)) w hw'
    · cases h

theorem pyStrip_nil : pyStrip [] = [] := rfl

theorem sliding_window_singleton {ch : List Char} {maxLen overlap : Nat}
    {ws : List (List Char)} (h : sliding_window [ch] maxLen overlap = some ws) :
    slideOne ch maxLen overlap = some ws := by
  rw [sliding_window] at h
  revert h
  split
  · rename_i ws₁ out h₁ h₂
    rw [sliding_window] at h₂
    cases h₂
    intro h
    cases h
    simpa using h₁
  · intro h
    cases h

theorem tablesLoop_text_ne_nil {chunkSize overlap : Nat} {docId src : String}
    {pageNum : Nat} {lang : String} {tables : List (Nat × List (List (List Char)))}
    {cs : List Chunk} (h : tablesLoop chunkSize overlap docId src pageNum lang tables = some cs)
    (hpos : 1 ≤ chunkSize) : ∀ c ∈ cs, c.text ≠ [] := by
  induction tables generalizing cs with
  | nil => rw [tablesLoop] at h; cases h; simp
  | cons titbl rest ih =>
    rw [tablesLoop] at h
    split at h
    · rename_i hflat
      split at h
      · rename_i parts out hparts hout
        cases h
        intro c hc
        rcases List.mem_append.mp hc with hc' | hc'
        · have hne : flatten_table titbl.2 ≠ [] := by
            intro hnil
            rw [hnil, pyStrip_nil] at hflat
            exact hflat rfl
          exact slideOne_ne_nil (sliding_window_singleton hparts)
            hpos hne _ (mem_tableChunks_text hc')
        · exact ih hout c hc'
      · cases h
    · exact ih h

theorem pageChunks_text_ne_nil {chunkSize overlap : Nat}
    {detect : List Char → String} {docId src : String} {page : NormalizedPage}
    {cs : List Chunk} (h : pageChunks chunkSize overlap detect docId src page = some cs)
    (hpos : 1 ≤ chunkSize) : ∀ c ∈ cs, c.text ≠ [] := by
  rw [pageChunks] at h
  split at h
  · rename_i paras tcs hparas htcs
    cases h
    intro c hc
    rcases List.mem_append.mp hc with hc' | hc'
    · exact sliding_window_ne_nil hparas hpos
        (fun p hp => split_paragraphs_ne_nil p hp) _ (mem_textChunks_text hc')
    · exact tablesLoop_text_ne_nil htcs hpos c hc'
  · cases h

/-- C10: with any `maxSegmentLength ≥ 1`, every chunk `build_chunks`
emits has non-empty text: paragraph splitting keeps only units that are
non-empty after stripping, blank-flattening tables are skipped, and the
sliding window never produces an empty window. -/
theorem build_chunks_text_ne_nil
    (chunkSize overlap : Nat) (detect : List Char → String) (doc : NormalizedDoc)
    (cs : List Chunk) (hpos : 1 ≤ chunkSize)
    (h : build_chunks chunkSize overlap detect doc = some cs) :
    ∀ c ∈ cs, c.text ≠ [] := by
  have : ∀ (pages : List NormalizedPage) (cs : List Chunk),
      build_chunks.go chunkSize overlap detect doc pages = some cs →
      ∀ c ∈ cs, c.text ≠ [] := by
    intro pages
    induction pages with
    | nil => intro cs h; rw [build_chunks.go] at h; cases h; simp
    | cons pg rest ih =>
      intro cs h
      rw [build_chunks.go] at h
      split at h
      · rename_i cs₁ out h₁ h₂
        cases h
        intro c hc
        rcases List.mem_append.mp hc with hc' | hc'
        · exact pageChunks_text_ne_nil h₁ hpos c hc'
        · exact ih out h₂ c hc'
      · cases h
  exact this doc.pages cs h

theorem build_chunks_text_ne_nil_witness :
    (1 ≤ 4 ∧ build_chunks 4 1 (fun _ => "en") demoDoc = some demoChunks) ∧
    ∀ c ∈ demoChunks, c.text ≠ [] :=
  ⟨⟨by decide, by rfl⟩,
    build_chunks_text_ne_nil 4 1 (fun _ => "en") demoDoc demoChunks
      (by decide) (by rfl)⟩

/-! ### Retrieval-rerank fusion (`src/services/api/main.py`) -/

/-- A Pinecone match as consumed by `rerank_results` and `ask`
(dict-style): the `metadata["text"]` field it sends to the reranker, the
similarity score, and the `rerank_score` key (absent on fresh matches). -/
structure PMatch where
  meta_text : List Char
  score : Int
  rerank_score : Option Int
deriving DecidableEq

/-- The external Cohere rerank capability: `(query, documents, top_n)` to
a list of `(index, relevance_score)` results; `none` models the call
raising. -/
def RerankFn : Type :=
  String → List (List Char) → Nat → Option (List (Nat × Int))

/-- The `for result in rerank_response.results` loop of `rerank_results`
(api `main.py`, lines 271-287): look the original match up by the
returned index, attach the rerank score (mutating the entry in the
original list), and append it to the reranked list.  An out-of-range
index raises inside the `try`, surfacing the matches mutated so far
(`Except.error`) for the fallback branch. -/
def applyRerank : List (Nat × Int) → List PMatch → List PMatch →
    Except (List PMatch) (List PMatch)
  | [], _, reranked => Except.ok reranked
  | (idx, s) :: rest, ms, reranked =>
    if h : idx < ms.length then
      let m := { ms.get ⟨idx, h⟩ with rerank_score := some s }
      applyRerank rest (ms.set idx m) (reranked ++ [m])
    else
      Except.error ms

/-- `rerank_results(query, matches, top_n)` (api `main.py`, lines
233-294).  `getClient` is `get_cohere_client`: `none` models the missing
API key (its `HTTPException` propagates, hence result `none`); the
overall result is `some` exactly when the Python function returns.  A
failing rerank call or a bad index falls back to the first `top_n`
original matches. -/
def rerank_results (getClient : Option RerankFn) (query : String)
    (ms : List PMatch) (top_n : Nat) : Option (List PMatch) :=
  if ms.isEmpty then some []
  else
    match getClient with
    | none => none
    | some client =>
      let documents := ms.map (·.meta_text)
      match client query documents top_n with
      | none => some (ms.take top_n)
      | some results =>
        match applyRerank results ms [] with
        | Except.ok reranked => some reranked
        | Except.error mutated => some (mutated.take top_n)

/-- C5: if the rerank call itself fails (an always-raising rerank
capability), `rerank_results` silently degrades instead of propagating:
it returns exactly the first `top_n` of the original similarity-ordered
candidates — a list of length `min top_n (number of candidates)` — and
every returned match still has `rerank_score` absent. -/
theorem rerank_results_fallback (client : RerankFn)
    (query : String) (ms : List PMatch) (top_n : Nat)
    (hfail : ∀ q d n, client q d n = none) (hne : ms ≠ [])
    (hfresh : ∀ m ∈ ms, m.rerank_score = none) :
    rerank_results (some client) query ms top_n = some (ms.take top_n) ∧
    (ms.take top_n).length = min top_n ms.length ∧
    ∀ m ∈ ms.take top_n, m.rerank_score = none := by
  refine ⟨?_, List.length_take _ _, fun m hm => hfresh m (List.take_subset _ _ hm)⟩
  rw [rerank_results, if_neg (by simpa using hne)]
  simp only [hfail]

/-- The fresh candidate list used to instantiate the fallback theorem. -/
def demoMatches : List PMatch :=
  [{ meta_text := "first snippet".toList, score := 9, rerank_score := none },
   { meta_text := "second snippet".toList, score := 7, rerank_score := none },
   { meta_text := "third snippet".toList, score := 5, rerank_score := none }]

theorem rerank_results_fallback_witness :
    ((∀ q d n, (fun (_ : String) (_ : List (List Char)) (_ : Nat) =>
        (none : Option (List (Nat × Int)))) q d n = none) ∧
      demoMatches ≠ [] ∧ ∀ m ∈ demoMatches, m.rerank_score = none) ∧
    (rerank_results (some fun _ _ _ => none) "q" demoMatches 2 =
        some (demoMatches.take 2) ∧
      (demoMatches.take 2).length = min 2 demoMatches.length ∧
      ∀ m ∈ demoMatches.take 2, m.rerank_score = none) :=
  ⟨⟨fun _ _ _ => rfl, by decide, by decide⟩,
    rerank_results_fallback (fun _ _ _ => none) "q" demoMatches 2
      (fun _ _ _ => rfl) (by decide) (by decide)⟩

/-- C9: reranking an empty candidate list returns `[]` immediately, for
every query and `top_n`, and for *every* state of `get_cohere_client` —
including `none` (missing rerank credentials), since the guard runs
before the client is ever requested. -/
theorem rerank_results_empty (getClient : Option RerankFn)
    (query : String) (top_n : Nat) :
    rerank_results getClient query [] top_n = some [] :=
  rfl

/-! ### Embedding pivot (`embed_texts` in api `main.py` / indexer `cli.py`) -/

/-- Python's substring test `needle in hay`. -/
def isSubstr (needle : List Char) : List Char → Bool
  | [] => needle.isEmpty
  | c :: rest => needle.isPrefixOf (c :: rest) || isSubstr needle rest

/-- The monolingual capability flag of `embed_texts`:
`"titan" in model or "english" in model` on the lowercased model id. -/
def isMonolingual (model : List Char) : Bool :=
  isSubstr "titan".toList model || isSubstr "english".toList model

/-- The text-transform (pivot) stage of `embed_texts` (api `main.py`
lines 150-165, indexer `cli.py` lines 234-249): when the model is
monolingual and language tags were supplied, every `"fr"`-tagged text is
replaced by its translation (`translateFrEn` is the external AWS
Translate capability) and every other text passes through; otherwise the
texts pass through unchanged. -/
def pivot_texts (model : List Char) (translateFrEn : List Char → List Char)
    (texts : List (List Char)) (langs : Option (List String)) :
    List (List Char) :=
  let modelL := model.map Char.toLower
  match langs with
  | some ls =>
    if isMonolingual modelL && !ls.isEmpty then
      (texts.zip ls).map fun tl =>
        if !tl.2.isEmpty && tl.2.startsWith "fr" then translateFrEn tl.1 else tl.1
    else texts
  | none => texts

/-- C8: with one language tag per text, the pivot output has the same
length as the input, and position by position: under a monolingual model
a text tagged `fr` (the only non-default language of this system) comes
out as its translation and any default-language text comes out
unchanged, while under a multilingual model every text comes out
unchanged regardless of its tag. -/
theorem embedding_pivot_spec (model : List Char)
    (translateFrEn : List Char → List Char) (texts : List (List Char))
    (ls : List String) (hlen : ls.length = texts.length) :
    (pivot_texts model translateFrEn texts (some ls)).length = texts.length ∧
    ∀ i, i < texts.length →
      ∃ t lg, texts[i]? = some t ∧ ls[i]? = some lg ∧
        (pivot_texts model translateFrEn texts (some ls))[i]? =
          some (if isMonolingual (model.map Char.toLower) &&
              (!lg.isEmpty && lg.startsWith "fr")
            then translateFrEn t else t) := by
  have hzl : (texts.zip ls).length = texts.length := by
    rw [List.length_zip, hlen, Nat.min_self]
  have hp : pivot_texts model translateFrEn texts (some ls) =
      if isMonolingual (model.map Char.toLower) && !ls.isEmpty then
        (texts.zip ls).map fun tl =>
          if !tl.2.isEmpty && tl.2.startsWith "fr" then translateFrEn tl.1 else tl.1
      else texts := rfl
  constructor
  · rw [hp]
    split
    · rw [List.length_map, hzl]
    · rfl
  · intro i hi
    have hil : i < ls.length := by omega
    have hiz : i < (texts.zip ls).length := by omega
    refine ⟨texts[i], ls[i], List.getElem?_eq_getElem hi,
      List.getElem?_eq_getElem hil, ?_⟩
    rw [hp]
    by_cases hc : (isMonolingual (model.map Char.toLower) && !ls.isEmpty) = true
    · rw [if_pos hc]
      rw [List.getElem?_map, List.getElem?_eq_getElem hiz, Option.map_some']
      have hz : (texts.zip ls)[i] = (texts[i], ls[i]) := List.getElem_zip
      rw [hz]
      have hmono : isMonolingual (model.map Char.toLower) = true :=
        (Bool.and_eq_true _ _).mp hc |>.1
      rw [hmono, Bool.true_and]
    · rw [if_neg hc]
      rw [List.getElem?_eq_getElem hi]
      have hlsne : ls.isEmpty = false := by
        cases h : ls.isEmpty with
        | false => rfl
        | true =>
          rw [List.isEmpty_iff] at h
          subst h
          simp at hil
      have hmono : isMonolingual (model.map Char.toLower) = false := by
        cases h : isMonolingual (model.map Char.toLower) with
        | false => rfl
        | true => exact absurd (by rw [h, hlsne]; rfl) hc
      rw [hmono, Bool.false_and]
      rfl

theorem embedding_pivot_spec_witness :
    ((["fr"] : List String).length = [("bonjour".toList)].length) ∧
    ((pivot_texts "amazon.titan-embed-text-v1".toList (fun _ => "hello".toList)
        [("bonjour".toList)] (some ["fr"])).length = [("bonjour".toList)].length ∧
    ∀ i, i < [("bonjour".toList)].length →
      ∃ t lg, [("bonjour".toList)][i]? = some t ∧ (["fr"] : List String)[i]? = some lg ∧
        (pivot_texts "amazon.titan-embed-text-v1".toList (fun _ => "hello".toList)
            [("bonjour".toList)] (some ["fr"]))[i]? =
          some (if isMonolingual ("amazon.titan-embed-text-v1".toList.map Char.toLower) &&
              (!lg.isEmpty && lg.startsWith "fr")
            then (fun _ => "hello".toList) t else t)) :=
  ⟨by decide,
    embedding_pivot_spec "amazon.titan-embed-text-v1".toList
      (fun _ => "hello".toList) [("bonjour".toList)] ["fr"] (by decide)⟩

/-! ### Citation scorer (`calculate_citation_metrics` in
`src/evals/run_ragas.py`, lines 95-157) -/

/-- Python `s.split(c)` for a one-character separator (the code splits
`expected_citations` on `","`). -/
def splitOnChar (c : Char) (s : List Char) : List (List Char) :=
  match s with
  | [] => [[]]
  | a :: rest =>
    if a = c then [] :: splitOnChar c rest
    else
      match splitOnChar c rest with
      | [] => [[a]]
      | r :: rs => (a :: r) :: rs

/-- A Python `set`, as the deduplicated list of its elements in first
insertion order (only membership, cardinality and intersection size are
ever used, all order-independent). -/
def toSet (l : List (List Char)) : List (List Char) :=
  l.foldl (fun s x => if x ∈ s then s else s ++ [x]) []

/-- `len(a & b)` for two Python sets (`a` deduplicated). -/
def interCard (a b : List (List Char)) : Nat :=
  (a.filter (fun x => x ∈ b)).length

/-- One entry of the golden set, as read by the scorer
(`golden.get("expected_citations", "")`). -/
structure GoldenExample where
  expected_citations : List Char
deriving DecidableEq

/-- One citation of an API response (`doc_id`, `page`; a missing
`doc_id` is `""`, a missing `page` is `0`, exactly the `.get` defaults
of the code). -/
structure RespCitation where
  doc_id : List Char
  page : Nat
deriving DecidableEq

/-- One API response (`response.get("citations", [])`). -/
structure ApiResponse where
  citations : List RespCitation
deriving DecidableEq

/-- `set(cite.strip() for cite in expected_citations_str.split(","))`. -/
def parseExpected (s : List Char) : List (List Char) :=
  toSet ((splitOnChar ',' s).map pyStrip)

/-- The returned-citation set: every citation with truthy `doc_id` and
`page` contributes the key `f"{doc_id}:{page}"`. -/
def parseReturned (cs : List RespCitation) : List (List Char) :=
  toSet (cs.filterMap fun c =>
    if c.doc_id ≠ [] ∧ c.page ≠ 0 then
      some (c.doc_id ++ ':' :: (toString c.page).toList)
    else none)

/-- The per-example loop of `calculate_citation_metrics` (lines
108-140): examples with an empty `expected_citations` string are
skipped; the remaining ones accumulate precision (`0` when the returned
set is empty) and recall (`0` when the expected set is empty) and bump
the count.  The accumulator is `(total_precision, total_recall, count)`. -/
def citationFold : List (GoldenExample × ApiResponse) → ℚ × ℚ × Nat → ℚ × ℚ × Nat
  | [], acc => acc
  | (g, r) :: rest, (tp, tr, count) =>
    if g.expected_citations = [] then citationFold rest (tp, tr, count)
    else
      let expected := parseExpected g.expected_citations
      let returned := parseReturned r.citations
      if expected = [] ∧ returned = [] then citationFold rest (tp, tr, count)
      else
        let prec : ℚ :=
          if returned ≠ [] then interCard expected returned / returned.length else 0
        let rec_ : ℚ :=
          if expected ≠ [] then interCard expected returned / expected.length else 0
        citationFold rest (tp + prec, tr + rec_, count + 1)

/-- `calculate_citation_metrics(golden_set, api_responses)` (lines
95-157): macro-average the per-example precision and recall, then form
F1 from the two averages.  Result: `(precision, recall, f1)`. -/
def calculate_citation_metrics (golden : List GoldenExample)
    (responses : List ApiResponse) : ℚ × ℚ × ℚ :=
  let acc := citationFold (golden.zip responses) (0, 0, 0)
  if acc.2.2 = 0 then (0, 0, 0)
  else
    let ap := acc.1 / acc.2.2
    let ar := acc.2.1 / acc.2.2
    let f1 := if ap + ar > 0 then 2 * (ap * ar) / (ap + ar) else 0
    (ap, ar, f1)

/-- Modelled from the spec, for comparison with the code: the claimed
per-example rule — an example is excluded only when the expected *set*
and the returned *set* are both empty (the expected set of an empty
string being empty), and every other example is scored and counted. -/
def claimedCitationFold : List (GoldenExample × ApiResponse) → ℚ × ℚ × Nat → ℚ × ℚ × Nat
  | [], acc => acc
  | (g, r) :: rest, (tp, tr, count) =>
    let expected : List (List Char) :=
      if g.expected_citations = [] then [] else parseExpected g.expected_citations
    let returned := parseReturned r.citations
    if expected = [] ∧ returned = [] then claimedCitationFold rest (tp, tr, count)
    else
      let prec : ℚ :=
        if returned ≠ [] then interCard expected returned / returned.length else 0
      let rec_ : ℚ :=
        if expected ≠ [] then interCard expected returned / expected.length else 0
      claimedCitationFold rest (tp + prec, tr + rec_, count + 1)

/-- The aggregate the claim describes, over the claimed per-example rule. -/
def claimed_citation_metrics (golden : List GoldenExample)
    (responses : List ApiResponse) : ℚ × ℚ × ℚ :=
  let acc := claimedCitationFold (golden.zip responses) (0, 0, 0)
  if acc.2.2 = 0 then (0, 0, 0)
  else
    let ap := acc.1 / acc.2.2
    let ar := acc.2.1 / acc.2.2
    let f1 := if ap + ar > 0 then 2 * (ap * ar) / (ap + ar) else 0
    (ap, ar, f1)

/-- The golden set of the counterexample batch: one normally-scored
example and one with an empty expected-citation string. -/
def cexGolden : List GoldenExample := [⟨"d:1".toList⟩, ⟨[]⟩]

/-- The API responses of the counterexample batch: a perfect citation
for the first example, a (spurious) citation for the second. -/
def cexResponses : List ApiResponse :=
  [⟨[⟨"d".toList, 1⟩]⟩, ⟨[⟨"x".toList, 2⟩]⟩]

/-- Counterexample to C6 as stated: on the batch above, the claim
scores the second example (its expected set is empty but its returned
set is not, so it is not excluded; precision 0, recall 0), averaging to
`(1/2, 1/2, 1/2)`; the code skips every example with an empty expected
*string* before ever looking at the returned set, and reports
`(1, 1, 1)`. -/
theorem calculate_citation_metrics_counterexample :
    calculate_citation_metrics cexGolden cexResponses = (1, 1, 1) ∧
    claimed_citation_metrics cexGolden cexResponses = (1/2, 1/2, 1/2) ∧
    calculate_citation_metrics cexGolden cexResponses ≠
      claimed_citation_metrics cexGolden cexResponses := by
  have h1 : calculate_citation_metrics cexGolden cexResponses = (1, 1, 1) := by
    have hfold : citationFold (cexGolden.zip cexResponses) (0, 0, 0) =
        ((0 : ℚ) + (↑(1 : ℕ) / ↑(1 : ℕ)), (0 : ℚ) + (↑(1 : ℕ) / ↑(1 : ℕ)), (1 : ℕ)) :=
      rfl
    simp only [calculate_citation_metrics, hfold]
    norm_num
  have h2 : claimed_citation_metrics cexGolden cexResponses = (1/2, 1/2, 1/2) := by
    have hfold : claimedCitationFold (cexGolden.zip cexResponses) (0, 0, 0) =
        ((0 : ℚ) + (↑(1 : ℕ) / ↑(1 : ℕ)) + (↑(0 : ℕ) / ↑(1 : ℕ)),
         (0 : ℚ) + (↑(1 : ℕ) / ↑(1 : ℕ)) + 0, (2 : ℕ)) :=
      rfl
    simp only [claimed_citation_metrics, hfold]
    norm_num
  refine ⟨h1, h2, ?_⟩
  rw [h1, h2]
  norm_num [Prod.ext_iff]

/-- Modelled from the spec as amended by the counterexample: an example
is excluded exactly when its expected-citation *string* is empty; every
other example is scored — precision `|expected ∩ returned| / |returned|`
(0 when `returned` is empty) and recall
`|expected ∩ returned| / |expected|` (the parsed expected set of a
non-empty string is never empty) — and counted in the averages. -/
def amendedCitationFold : List (GoldenExample × ApiResponse) → ℚ × ℚ × Nat → ℚ × ℚ × Nat
  | [], acc => acc
  | (g, r) :: rest, (tp, tr, count) =>
    if g.expected_citations = [] then amendedCitationFold rest (tp, tr, count)
    else
      let expected := parseExpected g.expected_citations
      let returned := parseReturned r.citations
      let prec : ℚ :=
        if returned ≠ [] then interCard expected returned / returned.length else 0
      let rec_ : ℚ := interCard expected returned / expected.length
      amendedCitationFold rest (tp + prec, tr + rec_, count + 1)

/-- The batch aggregate over the amended per-example rule. -/
def amended_citation_metrics (golden : List GoldenExample)
    (responses : List ApiResponse) : ℚ × ℚ × ℚ :=
  let acc := amendedCitationFold (golden.zip responses) (0, 0, 0)
  if acc.2.2 = 0 then (0, 0, 0)
  else
    let ap := acc.1 / acc.2.2
    let ar := acc.2.1 / acc.2.2
    let f1 := if ap + ar > 0 then 2 * (ap * ar) / (ap + ar) else 0
    (ap, ar, f1)

theorem splitOnChar_ne_nil (c : Char) (s : List Char) : splitOnChar c s ≠ [] := by
  induction s with
  | nil => simp [splitOnChar]
  | cons a rest ih =>
    rw [splitOnChar]
    split
    · simp
    · split
      · simp
      · simp

theorem toSet_ne_nil_aux (l : List (List Char)) (acc : List (List Char))
    (hacc : acc ≠ []) :
    l.foldl (fun s x => if x ∈ s then s else s ++ [x]) acc ≠ [] := by
  induction l generalizing acc with
  | nil => simpa [List.foldl]
  | cons x rest ih =>
    rw [List.foldl_cons]
    refine ih _ ?_
    split
    · exact hacc
    · simp

theorem parseExpected_ne_nil (s : List Char) : parseExpected s ≠ [] := by
  rw [parseExpected, toSet]
  rcases h : (splitOnChar ',' s).map pyStrip with _ | ⟨p, ps⟩
  · exact absurd (List.map_eq_nil_iff.mp h) (splitOnChar_ne_nil ',' s)
  · rw [List.foldl_cons]
    refine toSet_ne_nil_aux _ _ ?_
    split
    · simp_all
    · simp

theorem citationFold_eq_amended (l : List (GoldenExample × ApiResponse))
    (acc : ℚ × ℚ × Nat) : citationFold l acc = amendedCitationFold l acc := by
  induction l generalizing acc with
  | nil => rfl
  | cons gr rest ih =>
    obtain ⟨g, r⟩ := gr
    obtain ⟨tp, tr, count⟩ := acc
    rw [citationFold, amendedCitationFold]
    split
    · exact ih _
    · rename_i hstr
      rw [if_neg (by simp [parseExpected_ne_nil g.expected_citations]),
        if_pos (parseExpected_ne_nil g.expected_citations)]
      exact ih _

/-- C6 (amended): the code's batch citation scorer coincides, on every
batch, with the amended rule — exclusion exactly of the examples whose
expected-citation string is empty (regardless of the returned set), all
other examples scored with precision `|expected ∩ returned|/|returned|`
(0 when returned is empty) and recall `|expected ∩ returned|/|expected|`
and averaged. -/
theorem calculate_citation_metrics_amended (golden : List GoldenExample)
    (responses : List ApiResponse) :
    calculate_citation_metrics golden responses =
      amended_citation_metrics golden responses := by
  rw [calculate_citation_metrics, amended_citation_metrics,
    citationFold_eq_amended]

/-! ### Table reconstruction (`_extract_tables` in
`src/services/ingestor/cli.py`, lines 146-176) -/

/-- One entry of a block's `Relationships` list. -/
structure Relationship where
  rtype : String
  ids : List String
deriving DecidableEq

/-- A Textract block as consumed by `_extract_tables`: identifier,
`BlockType`, optional `Text`, optional `SelectionStatus`, the
`RowIndex`/`ColumnIndex` attributes of CELL blocks (absent defaults to
1, as in `cell.get("RowIndex", 1)`) and the `Relationships` list. -/
structure Block where
  id : String
  blockType : String
  text : Option (List Char)
  selectionStatus : Option String
  rowIndex : Option Nat
  columnIndex : Option Nat
  relationships : List Relationship
deriving DecidableEq

/-- `_blocks_index(blocks)`: the dict `{b["Id"]: b for b in blocks}` —
on duplicate ids the later block wins. -/
def blockIndex (blocks : List Block) (bid : String) : Option Block :=
  blocks.reverse.find? fun b => b.id = bid

/-- `_get_text_for_ids(ids, block_map)` (lines 130-143): WORD blocks
contribute their text, selected SELECTION_ELEMENT blocks contribute the
literal `"[X]"`, missing ids are skipped, and the non-empty parts are
space-joined. -/
def getTextForIds (blocks : List Block) (ids : List String) : List Char :=
  List.intercalate [' ']
    ((ids.filterMap fun bid =>
      match blockIndex blocks bid with
      | none => none
      | some b =>
        if b.blockType = "WORD" then some (b.text.getD [])
        else if b.blockType = "SELECTION_ELEMENT" ∧
            b.selectionStatus = some "SELECTED" then
          some "[X]".toList
        else none).filter (· ≠ []))

/-- The inner loop over a CELL's relationships (lines 162-165): `text`
is overwritten by the words of each CHILD relationship in turn, so the
last CHILD wins; `""` when there is none. -/
def cellText (blocks : List Block) (cell : Block) : List Char :=
  cell.relationships.foldl
    (fun acc rel => if rel.rtype = "CHILD" then getTextForIds blocks rel.ids else acc)
    []

/-- The resolvable cells of a TABLE block, in traversal order (lines
152-166): for every CHILD relationship, every referenced id that
resolves to a CELL block yields `(rowIndex, columnIndex, stripped
text)`. -/
def resolvedCells (blocks : List Block) (b : Block) : List (Nat × Nat × List Char) :=
  ((b.relationships.filter fun rel => rel.rtype = "CHILD").map fun rel =>
    rel.ids.filterMap fun cid =>
      match blockIndex blocks cid with
      | none => none
      | some cell =>
        if cell.blockType = "CELL" then
          some (cell.rowIndex.getD 1, cell.columnIndex.getD 1,
            pyStrip (cellText blocks cell))
        else none).flatten

/-- `cell_text[r][c]` of the defaultdict after the traversal: the last
write to position `(r, c)` wins; `none` when the position was never
written. -/
def cellLookup (cells : List (Nat × Nat × List Char)) (r c : Nat) :
    Option (List Char) :=
  (cells.reverse.find? fun rc => rc.1 = r ∧ rc.2.1 = c).map (·.2.2)

/-- `max(cell_text.keys())`: the largest row index among resolved cells. -/
def maxRow (cells : List (Nat × Nat × List Char)) : Nat :=
  cells.foldr (fun rc acc => max rc.1 acc) 0

/-- `max(max(cols.keys()) for cols in cell_text.values())`: the largest
column index among resolved cells. -/
def maxCol (cells : List (Nat × Nat × List Char)) : Nat :=
  cells.foldr (fun rc acc => max rc.2.1 acc) 0

/-- Lines 171-174: the dense grid `[1..maxRow] × [1..maxCol]`, unfilled
positions rendered as the empty string. -/
def materializeGrid (cells : List (Nat × Nat × List Char)) :
    List (List (List Char)) :=
  (List.range (maxRow cells)).map fun r0 =>
    (List.range (maxCol cells)).map fun c0 =>
      (cellLookup cells (r0 + 1) (c0 + 1)).getD []

/-- The body of the per-block loop of `_extract_tables`: non-TABLE
blocks and TABLE blocks with no resolvable cells produce nothing. -/
def extractOne (blocks : List Block) (b : Block) :
    Option (List (List (List Char))) :=
  if b.blockType = "TABLE" then
    if resolvedCells blocks b = [] then none
    else some (materializeGrid (resolvedCells blocks b))
  else none

/-- `_extract_tables(blocks)` (lines 146-176). -/
def extract_tables (blocks : List Block) : List (List (List (List Char))) :=
  blocks.filterMap (extractOne blocks)

/-- C7: every grid `_extract_tables` emits comes from some TABLE block
whose traversal resolved at least one cell, has exactly `maxRow` rows
each of exactly `maxCol` entries, and holds at every position the last
resolved text for that cell — the empty string where no cell resolved;
and a TABLE block with no resolvable cells is dropped, contributing no
grid at all. -/
theorem extract_tables_dense_rectangle (blocks : List Block)
    (grid : List (List (List Char))) (hg : grid ∈ extract_tables blocks) :
    (∃ b ∈ blocks, b.blockType = "TABLE" ∧ resolvedCells blocks b ≠ [] ∧
      grid.length = maxRow (resolvedCells blocks b) ∧
      (∀ row ∈ grid, row.length = maxCol (resolvedCells blocks b)) ∧
      (∀ r c, r < maxRow (resolvedCells blocks b) →
        c < maxCol (resolvedCells blocks b) →
        grid[r]?.bind (fun row => row[c]?) =
          some ((cellLookup (resolvedCells blocks b) (r + 1) (c + 1)).getD []))) ∧
    (∀ b ∈ blocks, b.blockType = "TABLE" → resolvedCells blocks b = [] →
      extractOne blocks b = none) := by
  constructor
  · rcases List.mem_filterMap.mp hg with ⟨b, hb, hf⟩
    rw [extractOne] at hf
    split at hf
    · rename_i hT
      split at hf
      · cases hf
      · rename_i hcells
        cases hf
        refine ⟨b, hb, hT, hcells, ?_, ?_, ?_⟩
        · rw [materializeGrid, List.length_map, List.length_range]
        · intro row hrow
          rw [materializeGrid] at hrow
          rcases List.mem_map.mp hrow with ⟨r0, _, rfl⟩
          rw [List.length_map, List.length_range]
        · intro r c hr hc
          rw [materializeGrid, List.getElem?_map, List.getElem?_range hr,
            Option.map_some', Option.some_bind, List.getElem?_map,
            List.getElem?_range hc, Option.map_some']
    · cases hf
  · intro b _ hT hcells
    rw [extractOne, if_pos hT]
    simp [hcells]

/-- The block set of the witness: a 2×2 TABLE whose two resolvable
cells sit at (1,1) and (2,2), with one WORD child. -/
def demoBlocks : List Block :=
  [{ id := "t", blockType := "TABLE", text := none, selectionStatus := none
     rowIndex := none, columnIndex := none
     relationships := [{ rtype := "CHILD", ids := ["c1", "c2", "ghost"] }] },
   { id := "c1", blockType := "CELL", text := none, selectionStatus := none
     rowIndex := some 1, columnIndex := some 1
     relationships := [{ rtype := "CHILD", ids := ["w1"] }] },
   { id := "c2", blockType := "CELL", text := none, selectionStatus := none
     rowIndex := some 2, columnIndex := some 2
     relationships := [] },
   { id := "w1", blockType := "WORD", text := some "Hello".toList
     selectionStatus := none, rowIndex := none, columnIndex := none
     relationships := [] }]

/-- The single grid extracted from `demoBlocks`. -/
def demoGrid : List (List (List Char)) :=
  (extract_tables demoBlocks).headD []

theorem extract_tables_dense_rectangle_witness :
    (demoGrid ∈ extract_tables demoBlocks) ∧
    ((∃ b ∈ demoBlocks, b.blockType = "TABLE" ∧
        resolvedCells demoBlocks b ≠ [] ∧
        demoGrid.length = maxRow (resolvedCells demoBlocks b) ∧
        (∀ row ∈ demoGrid, row.length = maxCol (resolvedCells demoBlocks b)) ∧
        (∀ r c, r < maxRow (resolvedCells demoBlocks b) →
          c < maxCol (resolvedCells demoBlocks b) →
          demoGrid[r]?.bind (fun row => row[c]?) =
            some ((cellLookup (resolvedCells demoBlocks b) (r + 1) (c + 1)).getD []))) ∧
      (∀ b ∈ demoBlocks, b.blockType = "TABLE" →
        resolvedCells demoBlocks b = [] → extractOne demoBlocks b = none)) :=
  ⟨by decide, extract_tables_dense_rectangle demoBlocks demoGrid (by decide)⟩

end GovDocRag
